import Mathlib

/-!
Verification of the Quoridor rules engine (`src/quoridor/__init__.py`).

The board is a `width × height` grid of squares identified by integer
coordinates `(x, y)`; `north` is `y-1`, `south` is `y+1`, `west` is `x-1`,
`east` is `x+1` (exactly the neighbour arithmetic of `Square.*_square`).
Each square carries two boolean flags, `has_horizontal_fence` and
`has_vertical_fence`; we embed them as total functions `Int → Int → Bool`
on the board (flags outside the grid are never consulted by the code on
in-bounds queries, mirroring the guards of the Python properties).

The breadth-first reachability check `_can_player_reach_goal` is embedded
with explicit fuel: its Python loop `while queue:` tests the truthiness of
a `queue.Queue` object, which is always `True`, so the loop only ever exits
through `return True`; the embedding returns `none` ("still running") when
the fuel runs out, `some true` when a goal square is dequeued, and — like
the source — can never produce `some false`.
-/

/-- A grid square, identified by its `(x, y)` coordinate
(the `Coordinate` base class of `Square`). -/
abbrev Cell := Int × Int

/-- The `CardinalPoint` enum of the source, in its declaration order
WEST, EAST, NORTH, SOUTH. -/
inductive CardinalPoint
  | west
  | east
  | north
  | south
deriving DecidableEq, Repr

/-- Embedding of `CardinalPoint.orthogonal_points`. -/
def CardinalPoint.orthogonalPoints : CardinalPoint → List CardinalPoint
  | .north => [.west, .east]
  | .south => [.west, .east]
  | .west => [.north, .south]
  | .east => [.north, .south]

/-- Iteration order `for cardinal_point in CardinalPoint`. -/
def cardinalPoints : List CardinalPoint :=
  [CardinalPoint.west, CardinalPoint.east, CardinalPoint.north, CardinalPoint.south]

/-- The board: dimensions plus the two per-square fence flags
(`Square.has_horizontal_fence` / `Square.has_vertical_fence`). -/
structure Board where
  width : Int
  height : Int
  hasHorizontalFence : Int → Int → Bool
  hasVerticalFence : Int → Int → Bool

/-- The bounds test of `Board.get`: `0 <= x < width and 0 <= y < height`. -/
def Board.inBounds (b : Board) (x y : Int) : Bool :=
  decide (0 ≤ x ∧ x < b.width ∧ 0 ≤ y ∧ y < b.height)

/-- Embedding of `Board.get(y, x)`: the square when in bounds, `None` otherwise. -/
def Board.get (b : Board) (y x : Int) : Option Cell :=
  if b.inBounds x y then some (x, y) else none

/-- Embedding of `Square.square_at(point)` (via `west_square`/`east_square`/
`north_square`/`south_square`). -/
def Board.squareAt (b : Board) (x y : Int) : CardinalPoint → Option Cell
  | .west => b.get y (x - 1)
  | .east => b.get y (x + 1)
  | .south => b.get (y + 1) x
  | .north => b.get (y - 1) x

/-- Embedding of `Square.west_fence`. -/
def Board.westFence (b : Board) (x y : Int) : Bool :=
  (b.inBounds (x - 1) y && b.hasVerticalFence (x - 1) y)
  || (b.inBounds (x - 1) y && b.inBounds (x - 1) (y - 1)
      && b.hasVerticalFence (x - 1) (y - 1))

/-- Embedding of `Square.east_fence`. -/
def Board.eastFence (b : Board) (x y : Int) : Bool :=
  b.hasVerticalFence x y
  || (b.inBounds x (y - 1) && b.hasVerticalFence x (y - 1))

/-- Embedding of `Square.north_fence`. -/
def Board.northFence (b : Board) (x y : Int) : Bool :=
  (b.inBounds x (y - 1) && b.hasHorizontalFence x (y - 1))
  || (b.inBounds x (y - 1) && b.inBounds (x - 1) (y - 1)
      && b.hasHorizontalFence (x - 1) (y - 1))

/-- Embedding of `Square.south_fence`. -/
def Board.southFence (b : Board) (x y : Int) : Bool :=
  b.hasHorizontalFence x y
  || (b.inBounds (x - 1) y && b.hasHorizontalFence (x - 1) y)

/-- Embedding of `Square.has_fence_at(point)`. -/
def Board.hasFenceAt (b : Board) (x y : Int) : CardinalPoint → Bool
  | .west => b.westFence x y
  | .east => b.eastFence x y
  | .south => b.southFence x y
  | .north => b.northFence x y

/-- Embedding of `Square.is_connected_with_square_at(point)`: `square and not fenced`. -/
def Board.isConnectedWithSquareAt (b : Board) (x y : Int) (d : CardinalPoint) : Bool :=
  (b.squareAt x y d).isSome && !(b.hasFenceAt x y d)

/-- Embedding of `Square.cardinal_neighbors()`: the squares yielded, in the enum's
iteration order. -/
def Board.cardinalNeighbors (b : Board) (x y : Int) : List Cell :=
  cardinalPoints.filterMap
    (fun d => if b.isConnectedWithSquareAt x y d then b.squareAt x y d else none)

/-- Embedding of `Square.place_horizontal_fence()` on the square `(x0, y0)`. -/
def Board.placeHorizontalFence (b : Board) (x0 y0 : Int) : Board :=
  { b with hasHorizontalFence := fun x y => b.hasHorizontalFence x y || (x == x0 && y == y0) }

/-- Embedding of `Square.place_vertical_fence()` on the square `(x0, y0)`. -/
def Board.placeVerticalFence (b : Board) (x0 y0 : Int) : Board :=
  { b with hasVerticalFence := fun x y => b.hasVerticalFence x y || (x == x0 && y == y0) }

/-- A board with all fence flags clear. -/
def emptyBoard (w h : Int) : Board :=
  ⟨w, h, fun _ _ => false, fun _ _ => false⟩

/-! ### Fence-flag edge geometry (claim C3) -/

/-- The set of directed edge-blocked observations newly created by a vertical
flag at `(x0, y0)`: the east edges of `(x0, y0)` and `(x0, y0+1)` and the west
edges of `(x0+1, y0)` and `(x0+1, y0+1)` — i.e. the two unit edges between
columns `x0` and `x0+1` at rows `y0` and `y0+1`, seen from both endpoints. -/
def vDelta (x0 y0 x y : Int) : CardinalPoint → Bool
  | .east => x == x0 && (y == y0 || y == y0 + 1)
  | .west => x == x0 + 1 && (y == y0 || y == y0 + 1)
  | _ => false

/-- The observations newly created by a horizontal flag at `(x0, y0)`: the
two unit edges between rows `y0` and `y0+1` at columns `x0` and `x0+1`,
seen from both endpoints. -/
def hDelta (x0 y0 x y : Int) : CardinalPoint → Bool
  | .south => y == y0 && (x == x0 || x == x0 + 1)
  | .north => y == y0 + 1 && (x == x0 || x == x0 + 1)
  | _ => false


/-! ### Players and pawn-move legality -/

/-- The `Player` record: a pawn square plus the goal squares
(`player.pawn`, `player.goals`). -/
structure Player where
  pawn : Cell
  goals : List Cell

/-- Embedding of `Square.has_pawn`: whether any player's pawn sits on the square. -/
def hasPawn (pawns : List Cell) (c : Cell) : Bool :=
  pawns.contains c

/-- The destinations contributed to `possible_moves` by a single cardinal
direction in `Move_MovePawn.check_valid`: a simple step when the neighbour
is free, the straight continuation when it holds a pawn and the edge beyond
is open, and otherwise the open orthogonal neighbours of the occupied
square. -/
def dirContribution (b : Board) (pawns : List Cell) (p0 : Cell) (d : CardinalPoint) :
    List Cell :=
  if b.isConnectedWithSquareAt p0.1 p0.2 d then
    match b.squareAt p0.1 p0.2 d with
    | none => []
    | some s1 =>
      if hasPawn pawns s1 then
        if b.isConnectedWithSquareAt s1.1 s1.2 d then
          match b.squareAt s1.1 s1.2 d with
          | none => []
          | some s2 => [s2]
        else
          d.orthogonalPoints.filterMap
            (fun od => if b.isConnectedWithSquareAt s1.1 s1.2 od
                       then b.squareAt s1.1 s1.2 od else none)
      else [s1]
  else []

/-- The `possible_moves` set built by `Move_MovePawn.check_valid`
(as a list; only membership is ever consulted). -/
def possibleMoves (b : Board) (pawns : List Cell) (p0 : Cell) : List Cell :=
  cardinalPoints.flatMap (dirContribution b pawns p0)

/-- Embedding of `Move_MovePawn.check_valid`: `self.square in possible_moves`. -/
def checkValid_movePawn (b : Board) (pawns : List Cell) (p0 target : Cell) : Bool :=
  (possibleMoves b pawns p0).contains target

/-- Embedding of `Move_MovePawn.apply`: the mover's pawn is set to the target. -/
def apply_movePawn (p : Player) (target : Cell) : Player :=
  { p with pawn := target }

/-! ### Breadth-first reachability (`_can_player_reach_goal`)

The Python loop is

```
while queue:
    width = queue.qsize()
    for w in range(width):
        square = queue.get()
        if square in player.goals: return True
        if square not in visited:
            visited.add(square)
            for neighbor in square.cardinal_neighbors(): queue.put(neighbor)
return False
```

`queue` is a `queue.Queue`, which defines neither `__bool__` nor `__len__`,
so `while queue:` is `while True:`. Each outer iteration processes one
frontier level (the `width` squares dequeued); squares enqueued during the
level form the next level. We embed one outer iteration as `bfsLevel`
(`none` signals `return True` fired) and the outer loop with fuel as
`bfsLoop` (`none` = still running after that many levels). No branch
produces `some false`: the `return False` line is unreachable. -/

/-- One level of the BFS: scan the dequeued squares in order, returning
`none` as soon as a goal square is seen, else the next level's queue and
the grown visited set. -/
def bfsLevel (b : Board) (goals : List Cell) :
    List Cell → List Cell → List Cell → Option (List Cell × List Cell)
  | [], visited, next => some (next, visited)
  | c :: rest, visited, next =>
    if goals.contains c then none
    else if visited.contains c then bfsLevel b goals rest visited next
    else bfsLevel b goals rest (c :: visited) (next ++ b.cardinalNeighbors c.1 c.2)

/-- The outer `while queue:` loop, fuel-indexed: `some true` when a goal
square was dequeued within that many levels, `none` otherwise (the loop is
still running — it never exits by itself). -/
def bfsLoop (b : Board) (goals : List Cell) : Nat → List Cell → List Cell → Option Bool
  | 0, _, _ => none
  | n + 1, queue, visited =>
    match bfsLevel b goals queue visited [] with
    | none => some true
    | some (next, visited') => bfsLoop b goals n next visited'

/-- Embedding of `_can_player_reach_goal(player)`, fuel-indexed. -/
def canPlayerReachGoal (b : Board) (p : Player) (fuel : Nat) : Option Bool :=
  bfsLoop b p.goals fuel [p.pawn] []

/-- The `for player in self.game.players` loop of the fence validators:
`some false` if some player's check returns `False` (dead in practice),
`none` if a check never returns, else `some true`. -/
def allPlayersReachGoal (b : Board) (players : List Player) (fuel : Nat) : Option Bool :=
  match players with
  | [] => some true
  | p :: rest =>
    match canPlayerReachGoal b p fuel with
    | some true => allPlayersReachGoal b rest fuel
    | some false => some false
    | none => none

/-- Embedding of `Move_PlaceFenceHorizontally.check_valid`, fuel-indexed
(`none` = the reachability loop never returns). -/
def checkValid_placeFenceHorizontally (b : Board) (players : List Player)
    (x y : Int) (fuel : Nat) : Option Bool :=
  if b.hasHorizontalFence x y then some false
  else if b.inBounds (x + 1) y && b.hasHorizontalFence (x + 1) y then some false
  else allPlayersReachGoal b players fuel

/-- Embedding of `Move_PlaceFenceVertically.check_valid`, fuel-indexed. -/
def checkValid_placeFenceVertically (b : Board) (players : List Player)
    (x y : Int) (fuel : Nat) : Option Bool :=
  if b.hasVerticalFence x y then some false
  else if b.inBounds x (y + 1) && b.hasVerticalFence x (y + 1) then some false
  else allPlayersReachGoal b players fuel

/-! ### Path existence in the open-edge graph -/

/-- One traversal step of the open-edge graph: `c'` is yielded by
`cardinal_neighbors` of `c`. -/
def stepTo (b : Board) (c c' : Cell) : Prop :=
  c' ∈ b.cardinalNeighbors c.1 c.2

/-- An open path exists from `s` to some square of `goals`
(the specification's `reachable(start, goals)`). -/
def CanReach (b : Board) (s : Cell) (goals : List Cell) : Prop :=
  ∃ g ∈ goals, Relation.ReflTransGen (stepTo b) s g

/-! ### Game state, `Game.move`, and move parsing -/

/-- The tagged move variants produced by `Move.parse`. -/
inductive MoveT
  | pawnMove (target : Cell)
  | fenceH (anchor : Cell)
  | fenceV (anchor : Cell)
deriving DecidableEq, Repr

/-- The square a move addresses. -/
def MoveT.target : MoveT → Cell
  | .pawnMove c => c
  | .fenceH c => c
  | .fenceV c => c

/-- The mutable game state threaded through `Game.move`:
the board, the players, `turn` (`none` before `start`), `is_ingame`. -/
structure GameState where
  board : Board
  players : List Player
  turn : Option Int
  isIngame : Bool

/-- Embedding of `Game.current_player`: `players[turn % len(players)]`
(`none` when the player list is empty, where Python would raise). -/
def currentPlayer (players : List Player) (t : Int) : Option Player :=
  players.get? (t % (players.length : Int)).toNat

/-- Embedding of `Move.check_valid` dispatched over the move kind, at turn value `t`.
`none` means the call never returns a boolean (the fence validators'
reachability loop spins forever, or `current_player` raises). -/
def checkValidMove (g : GameState) (t : Int) (m : MoveT) (fuel : Nat) : Option Bool :=
  match m with
  | .pawnMove c =>
    match currentPlayer g.players t with
    | none => none
    | some p => some (checkValid_movePawn g.board (g.players.map (·.pawn)) p.pawn c)
  | .fenceH a => checkValid_placeFenceHorizontally g.board g.players a.1 a.2 fuel
  | .fenceV a => checkValid_placeFenceVertically g.board g.players a.1 a.2 fuel

/-- Embedding of `Move.apply` dispatched over the move kind, at turn value `t`. -/
def applyMove (g : GameState) (t : Int) (m : MoveT) : GameState :=
  match m with
  | .pawnMove c =>
    let idx := (t % (g.players.length : Int)).toNat
    let p' : Player :=
      match currentPlayer g.players t with
      | some p => apply_movePawn p c
      | none => ⟨c, []⟩
    { g with players := g.players.set idx p' }
  | .fenceH a => { g with board := g.board.placeHorizontalFence a.1 a.2 }
  | .fenceV a => { g with board := g.board.placeVerticalFence a.1 a.2 }

/-- Embedding of `Game._end_turn`: end the game if the current player stands on a goal
square, otherwise advance the turn counter. -/
def endTurn (g : GameState) (t : Int) : GameState :=
  match currentPlayer g.players t with
  | none => g
  | some p =>
    if p.goals.contains p.pawn then { g with isIngame := false }
    else { g with turn := some (t + 1) }

/-- Embedding of `Game.move` after parsing: validate, then on success apply and end the
turn, on failure leave the state untouched. `none` = no state is ever
returned (unstarted game, or a validation that never terminates). -/
def gameMove (g : GameState) (m : MoveT) (fuel : Nat) : Option GameState :=
  match g.turn with
  | none => none
  | some t =>
    match checkValidMove g t m fuel with
    | none => none
    | some true => some (endTurn (applyMove g t m) t)
    | some false => some g

/-- The default setup of `Game._setup`/`Game._start`: empty 9×9 board,
player 0 at e1 with goal row 9, player 1 at e9 with goal row 1, turn 1. -/
def goalRow (y : Int) : List Cell :=
  (List.range 9).map (fun i => ((i : Int), y))

/-- The state right after `Game.start()`. -/
def gameStart : GameState :=
  { board := emptyBoard 9 9
    players := [⟨(4, 0), goalRow 8⟩, ⟨(4, 8), goalRow 0⟩]
    turn := some 1
    isIngame := true }

/-! ## Theorems -/

/-- Setting a vertical flag changes the edge-blocked queries exactly by
`vDelta`, at every in-bounds square. -/
theorem place_vertical_fence_delta (b : Board) (x0 y0 x y : Int) (d : CardinalPoint)
    (h0 : b.inBounds x0 y0 = true) (h1 : b.inBounds x y = true) :
    (b.placeVerticalFence x0 y0).hasFenceAt x y d
      = (b.hasFenceAt x y d || vDelta x0 y0 x y d) := by
  have h0' := of_decide_eq_true h0
  have h1' := of_decide_eq_true h1
  cases d <;>
    simp only [Board.hasFenceAt, Board.eastFence, Board.westFence, Board.northFence,
      Board.southFence, Board.placeVerticalFence, vDelta, Board.inBounds, Bool.or_false] <;>
    rw [Bool.eq_iff_iff] <;>
    simp only [Bool.or_eq_true, Bool.and_eq_true, beq_iff_eq, decide_eq_true_iff] <;>
    cases hb : b.hasVerticalFence x y <;>
    cases hc : b.hasVerticalFence x (y-1) <;>
    cases hd2 : b.hasVerticalFence (x-1) y <;>
    cases he : b.hasVerticalFence (x-1) (y-1) <;>
    simp [hb, hc, hd2, he] <;>
    omega

/-- Setting a horizontal flag changes the edge-blocked queries exactly by
`hDelta`, at every in-bounds square. -/
theorem place_horizontal_fence_delta (b : Board) (x0 y0 x y : Int) (d : CardinalPoint)
    (h0 : b.inBounds x0 y0 = true) (h1 : b.inBounds x y = true) :
    (b.placeHorizontalFence x0 y0).hasFenceAt x y d
      = (b.hasFenceAt x y d || hDelta x0 y0 x y d) := by
  have h0' := of_decide_eq_true h0
  have h1' := of_decide_eq_true h1
  cases d <;>
    simp only [Board.hasFenceAt, Board.eastFence, Board.westFence, Board.northFence,
      Board.southFence, Board.placeHorizontalFence, hDelta, Board.inBounds, Bool.or_false] <;>
    rw [Bool.eq_iff_iff] <;>
    simp only [Bool.or_eq_true, Bool.and_eq_true, beq_iff_eq, decide_eq_true_iff] <;>
    cases hb : b.hasHorizontalFence x y <;>
    cases hc : b.hasHorizontalFence x (y-1) <;>
    cases hd2 : b.hasHorizontalFence (x-1) y <;>
    cases he : b.hasHorizontalFence (x-1) (y-1) <;>
    simp [hb, hc, hd2, he] <;>
    omega

/-! ### Helper lemmas about the BFS -/

/-- The level scan `bfsLevel` signals `return True` only if a goal square sits in the
scanned queue. -/
theorem bfsLevel_none_of_goal (b : Board) (goals : List Cell) :
    ∀ q v acc, bfsLevel b goals q v acc = none →
      ∃ c ∈ q, goals.contains c = true := by
  intro q
  induction q with
  | nil => intro v acc h; simp [bfsLevel] at h
  | cons c rest ih =>
    intro v acc h
    rw [bfsLevel] at h
    split at h
    · exact ⟨c, List.mem_cons_self c rest, by assumption⟩
    · split at h
      · obtain ⟨d, hd, hdg⟩ := ih _ _ h
        exact ⟨d, List.mem_cons_of_mem _ hd, hdg⟩
      · obtain ⟨d, hd, hdg⟩ := ih _ _ h
        exact ⟨d, List.mem_cons_of_mem _ hd, hdg⟩

/-- Every square of the next level produced by `bfsLevel` was already in the
accumulator or is a neighbour of a scanned square. -/
theorem bfsLevel_next_mem (b : Board) (goals : List Cell) :
    ∀ q v acc next v', bfsLevel b goals q v acc = some (next, v') →
      ∀ c ∈ next, c ∈ acc ∨ ∃ d ∈ q, c ∈ b.cardinalNeighbors d.1 d.2 := by
  intro q
  induction q with
  | nil =>
    intro v acc next v' h c hc
    rw [bfsLevel] at h
    obtain ⟨h1, _⟩ := Prod.mk.injEq .. ▸ Option.some.injEq .. ▸ h
    exact Or.inl (h1 ▸ hc)
  | cons a rest ih =>
    intro v acc next v' h c hc
    rw [bfsLevel] at h
    split at h
    · cases h
    · split at h
      · rcases ih _ _ _ _ h c hc with h' | ⟨d, hd, hdn⟩
        · exact Or.inl h'
        · exact Or.inr ⟨d, List.mem_cons_of_mem _ hd, hdn⟩
      · rcases ih _ _ _ _ h c hc with h' | ⟨d, hd, hdn⟩
        · rcases List.mem_append.mp h' with h'' | h''
          · exact Or.inl h''
          · exact Or.inr ⟨a, List.mem_cons_self a rest, h''⟩
        · exact Or.inr ⟨d, List.mem_cons_of_mem _ hd, hdn⟩

/-- With an empty queue the outer loop spins forever. -/
theorem bfsLoop_empty (b : Board) (goals : List Cell) (v : List Cell) :
    ∀ n, bfsLoop b goals n [] v = none := by
  intro n
  induction n with
  | zero => rfl
  | succ n ih => simpa [bfsLoop, bfsLevel] using ih

/-- A result of `bfsLoop` is stable under one more unit of fuel. -/
theorem bfsLoop_mono (b : Board) (goals : List Cell) :
    ∀ n q v r, bfsLoop b goals n q v = some r →
      bfsLoop b goals (n + 1) q v = some r := by
  intro n
  induction n with
  | zero => intro q v r h; simp [bfsLoop] at h
  | succ n ih =>
    intro q v r h
    rw [bfsLoop] at h ⊢
    cases hl : bfsLevel b goals q v [] with
    | none => rw [hl] at h; exact h
    | some p => rw [hl] at h; exact ih _ _ _ h

/-- A result of `bfsLoop` is stable under any added fuel. -/
theorem bfsLoop_mono_add (b : Board) (goals : List Cell) (n k : Nat) (q v : List Cell)
    (r : Bool) (h : bfsLoop b goals n q v = some r) :
    bfsLoop b goals (n + k) q v = some r := by
  induction k with
  | zero => exact h
  | succ k ih => exact bfsLoop_mono b goals (n + k) q v r ih

/-- Soundness of the BFS: if the loop answers `true` and every queued square
is open-path reachable from `s`, then some goal square is reachable from
`s`. -/
theorem bfsLoop_sound (b : Board) (goals : List Cell) (s : Cell) :
    ∀ n q v, (∀ c ∈ q, Relation.ReflTransGen (stepTo b) s c) →
      bfsLoop b goals n q v = some true → CanReach b s goals := by
  intro n
  induction n with
  | zero => intro q v _ h; simp [bfsLoop] at h
  | succ n ih =>
    intro q v hq h
    rw [bfsLoop] at h
    cases hl : bfsLevel b goals q v [] with
    | none =>
      obtain ⟨c, hc, hcg⟩ := bfsLevel_none_of_goal b goals q v [] hl
      exact ⟨c, by simpa using hcg, hq c hc⟩
    | some p =>
      rw [hl] at h
      refine ih p.1 p.2 ?_ h
      intro c hc
      rcases bfsLevel_next_mem b goals q v [] p.1 p.2 (by rw [hl]) c hc with h' | ⟨d, hd, hdn⟩
      · simp at h'
      · exact (hq d hd).tail hdn

/-- Soundness of `_can_player_reach_goal`: a `True` answer means an open
path from the pawn to a goal square exists. -/
theorem canPlayerReachGoal_sound (b : Board) (p : Player) (fuel : Nat)
    (h : canPlayerReachGoal b p fuel = some true) :
    CanReach b p.pawn p.goals := by
  refine bfsLoop_sound b p.goals p.pawn fuel [p.pawn] [] ?_ h
  intro c hc
  rcases List.mem_singleton.mp hc with rfl
  exact Relation.ReflTransGen.refl

/-- Soundness of the player loop of the fence validators. -/
theorem allPlayersReachGoal_sound (b : Board) :
    ∀ players fuel, allPlayersReachGoal b players fuel = some true →
      ∀ p ∈ players, CanReach b p.pawn p.goals := by
  intro players
  induction players with
  | nil => intro fuel _ p hp; simp at hp
  | cons a rest ih =>
    intro fuel h p hp
    rw [allPlayersReachGoal] at h
    cases hr : canPlayerReachGoal b a fuel with
    | none => rw [hr] at h; cases h
    | some rb =>
      cases rb with
      | false => rw [hr] at h; cases h
      | true =>
        rw [hr] at h
        rcases List.mem_cons.mp hp with rfl | hp'
        · exact canPlayerReachGoal_sound b p fuel hr
        · exact ih fuel h p hp'

/-! ### Helper lemmas: adding a fence only removes edges -/

/-- Placing a horizontal fence does not move squares. -/
theorem squareAt_placeHorizontalFence (b : Board) (x0 y0 x y : Int) (d : CardinalPoint) :
    (b.placeHorizontalFence x0 y0).squareAt x y d = b.squareAt x y d := by
  cases d <;> rfl

/-- Placing a vertical fence does not move squares. -/
theorem squareAt_placeVerticalFence (b : Board) (x0 y0 x y : Int) (d : CardinalPoint) :
    (b.placeVerticalFence x0 y0).squareAt x y d = b.squareAt x y d := by
  cases d <;> rfl

/-- An edge blocked before a horizontal fence is placed stays blocked. -/
theorem hasFenceAt_placeHorizontalFence_mono (b : Board) (x0 y0 x y : Int)
    (d : CardinalPoint) (h : b.hasFenceAt x y d = true) :
    (b.placeHorizontalFence x0 y0).hasFenceAt x y d = true := by
  cases d <;>
    simp only [Board.hasFenceAt, Board.westFence, Board.eastFence, Board.northFence,
      Board.southFence, Board.placeHorizontalFence, Bool.or_eq_true, Bool.and_eq_true] at h ⊢ <;>
    tauto

/-- An edge blocked before a vertical fence is placed stays blocked. -/
theorem hasFenceAt_placeVerticalFence_mono (b : Board) (x0 y0 x y : Int)
    (d : CardinalPoint) (h : b.hasFenceAt x y d = true) :
    (b.placeVerticalFence x0 y0).hasFenceAt x y d = true := by
  cases d <;>
    simp only [Board.hasFenceAt, Board.westFence, Board.eastFence, Board.northFence,
      Board.southFence, Board.placeVerticalFence, Bool.or_eq_true, Bool.and_eq_true] at h ⊢ <;>
    tauto

/-- A neighbour yielded after placing a horizontal fence was already a
neighbour before. -/
theorem cardinalNeighbors_placeHorizontalFence_subset (b : Board) (x0 y0 x y : Int)
    (c : Cell) (h : c ∈ (b.placeHorizontalFence x0 y0).cardinalNeighbors x y) :
    c ∈ b.cardinalNeighbors x y := by
  obtain ⟨d, hd, hdc⟩ := List.mem_filterMap.mp h
  refine List.mem_filterMap.mpr ⟨d, hd, ?_⟩
  by_cases hc : (b.placeHorizontalFence x0 y0).isConnectedWithSquareAt x y d
  · rw [if_pos hc] at hdc
    have hsq : b.squareAt x y d = some c := by
      rw [← squareAt_placeHorizontalFence b x0 y0 x y d]; exact hdc
    have hcon : b.isConnectedWithSquareAt x y d = true := by
      have h1 := hc
      simp only [Board.isConnectedWithSquareAt, Bool.and_eq_true, Bool.not_eq_true'] at h1 ⊢
      rcases h1 with ⟨hs, hf⟩
      refine ⟨by rw [← squareAt_placeHorizontalFence b x0 y0 x y d]; exact hs, ?_⟩
      by_contra hbf
      have hbf' : b.hasFenceAt x y d = true := by
        cases hbb : b.hasFenceAt x y d
        · exact absurd hbb hbf
        · rfl
      rw [hasFenceAt_placeHorizontalFence_mono b x0 y0 x y d hbf'] at hf
      cases hf
    rw [if_pos hcon]
    exact hsq
  · rw [if_neg hc] at hdc
    cases hdc

/-- A neighbour yielded after placing a vertical fence was already a
neighbour before. -/
theorem cardinalNeighbors_placeVerticalFence_subset (b : Board) (x0 y0 x y : Int)
    (c : Cell) (h : c ∈ (b.placeVerticalFence x0 y0).cardinalNeighbors x y) :
    c ∈ b.cardinalNeighbors x y := by
  obtain ⟨d, hd, hdc⟩ := List.mem_filterMap.mp h
  refine List.mem_filterMap.mpr ⟨d, hd, ?_⟩
  by_cases hc : (b.placeVerticalFence x0 y0).isConnectedWithSquareAt x y d
  · rw [if_pos hc] at hdc
    have hsq : b.squareAt x y d = some c := by
      rw [← squareAt_placeVerticalFence b x0 y0 x y d]; exact hdc
    have hcon : b.isConnectedWithSquareAt x y d = true := by
      have h1 := hc
      simp only [Board.isConnectedWithSquareAt, Bool.and_eq_true, Bool.not_eq_true'] at h1 ⊢
      rcases h1 with ⟨hs, hf⟩
      refine ⟨by rw [← squareAt_placeVerticalFence b x0 y0 x y d]; exact hs, ?_⟩
      by_contra hbf
      have hbf' : b.hasFenceAt x y d = true := by
        cases hbb : b.hasFenceAt x y d
        · exact absurd hbb hbf
        · rfl
      rw [hasFenceAt_placeVerticalFence_mono b x0 y0 x y d hbf'] at hf
      cases hf
    rw [if_pos hcon]
    exact hsq
  · rw [if_neg hc] at hdc
    cases hdc

/-- Open-path reachability survives removing a horizontal fence. -/
theorem canReach_of_canReach_placeHorizontalFence (b : Board) (x0 y0 : Int)
    (s : Cell) (goals : List Cell)
    (h : CanReach (b.placeHorizontalFence x0 y0) s goals) : CanReach b s goals := by
  obtain ⟨g, hg, hpath⟩ := h
  refine ⟨g, hg, Relation.ReflTransGen.mono ?_ hpath⟩
  intro a c hac
  exact cardinalNeighbors_placeHorizontalFence_subset b x0 y0 a.1 a.2 c hac

/-- Open-path reachability survives removing a vertical fence. -/
theorem canReach_of_canReach_placeVerticalFence (b : Board) (x0 y0 : Int)
    (s : Cell) (goals : List Cell)
    (h : CanReach (b.placeVerticalFence x0 y0) s goals) : CanReach b s goals := by
  obtain ⟨g, hg, hpath⟩ := h
  refine ⟨g, hg, Relation.ReflTransGen.mono ?_ hpath⟩
  intro a c hac
  exact cardinalNeighbors_placeVerticalFence_subset b x0 y0 a.1 a.2 c hac

/-- Open paths cannot escape a set closed under `cardinal_neighbors`. -/
theorem reach_closed (b : Board) (S : List Cell)
    (hS : ∀ a ∈ S, ∀ c ∈ b.cardinalNeighbors a.1 a.2, c ∈ S) (s g : Cell)
    (hs : s ∈ S) (h : Relation.ReflTransGen (stepTo b) s g) : g ∈ S := by
  induction h with
  | refl => exact hs
  | tail _ hstep ih => exact hS _ ih _ hstep

/-- Results of `_can_player_reach_goal` are stable under added fuel. -/
theorem canPlayerReachGoal_mono_add (b : Board) (p : Player) (fuel k : Nat) (r : Bool)
    (h : canPlayerReachGoal b p fuel = some r) :
    canPlayerReachGoal b p (fuel + k) = some r :=
  bfsLoop_mono_add b p.goals fuel k [p.pawn] [] r h

/-- The player loop's result is stable under added fuel. -/
theorem allPlayersReachGoal_mono_add (b : Board) :
    ∀ players fuel k r, allPlayersReachGoal b players fuel = some r →
      allPlayersReachGoal b players (fuel + k) = some r := by
  intro players
  induction players with
  | nil => intro fuel k r h; exact h
  | cons a rest ih =>
    intro fuel k r h
    rw [allPlayersReachGoal] at h ⊢
    cases hr : canPlayerReachGoal b a fuel with
    | none => rw [hr] at h; cases h
    | some rb =>
      rw [hr] at h
      rw [canPlayerReachGoal_mono_add b a fuel k rb hr]
      cases rb with
      | false => exact h
      | true => exact ih fuel k r h

/-! ### Claims C3, C4, C5 -/

/-- Claim C3 (amended): for every in-bounds anchor (x0,y0) and in-bounds
queried square, setting the vertical flag on (x0,y0) blocks exactly the unit
edges between column x0 and column x0+1 at rows y0 and y0+1, and setting the
horizontal flag blocks exactly the unit edges between row y0 and row y0+1 at
columns x0 and x0+1, as observed through the edge-blocked queries for the
four cardinal directions. (The claim as stated places both spans one unit
toward the north-west: columns x-1/x at rows y/y-1 for vertical and rows
y-1/y at columns x/x-1 for horizontal — refuted by the counterexample.) -/
theorem fence_flag_blocks_exactly_adjacent_edges (b : Board) (x0 y0 x y : Int)
    (d : CardinalPoint) (h0 : b.inBounds x0 y0 = true) (h1 : b.inBounds x y = true) :
    (b.placeVerticalFence x0 y0).hasFenceAt x y d
        = (b.hasFenceAt x y d || vDelta x0 y0 x y d)
    ∧ (b.placeHorizontalFence x0 y0).hasFenceAt x y d
        = (b.hasFenceAt x y d || hDelta x0 y0 x y d) :=
  ⟨place_vertical_fence_delta b x0 y0 x y d h0 h1,
   place_horizontal_fence_delta b x0 y0 x y d h0 h1⟩

theorem fence_flag_blocks_exactly_adjacent_edges_witness :
    ((emptyBoard 3 3).placeVerticalFence 1 1).hasFenceAt 2 2 CardinalPoint.west
        = ((emptyBoard 3 3).hasFenceAt 2 2 CardinalPoint.west || vDelta 1 1 2 2 CardinalPoint.west)
    ∧ ((emptyBoard 3 3).placeHorizontalFence 1 1).hasFenceAt 2 2 CardinalPoint.west
        = ((emptyBoard 3 3).hasFenceAt 2 2 CardinalPoint.west || hDelta 1 1 2 2 CardinalPoint.west) :=
  fence_flag_blocks_exactly_adjacent_edges (emptyBoard 3 3) 1 1 2 2 CardinalPoint.west
    (by decide) (by decide)

theorem vertical_flag_blocks_east_not_west_cex :
    ((emptyBoard 3 3).placeVerticalFence 1 1).hasFenceAt 1 1 CardinalPoint.west = false
    ∧ ((emptyBoard 3 3).placeVerticalFence 1 1).hasFenceAt 1 0 CardinalPoint.west = false
    ∧ ((emptyBoard 3 3).placeVerticalFence 1 1).hasFenceAt 1 1 CardinalPoint.east = true
    ∧ ((emptyBoard 3 3).placeHorizontalFence 1 1).hasFenceAt 1 1 CardinalPoint.north = false
    ∧ ((emptyBoard 3 3).placeHorizontalFence 1 1).hasFenceAt 1 1 CardinalPoint.south = true := by
  decide

/-- Claim C4: jump exclusivity. If the edge from the mover toward `d` is
open, the neighbour `s1` holds a pawn, and the edge from `s1` onward in `d`
is open with an on-board square `s2` beyond it, then direction `d`
contributes exactly `[s2]` to the legal destination set — the straight jump,
and no diagonal square through `s1` — and `s2` is a legal destination. -/
theorem jump_exclusivity (b : Board) (pawns : List Cell) (p0 s1 s2 : Cell)
    (d : CardinalPoint)
    (h1 : b.isConnectedWithSquareAt p0.1 p0.2 d = true)
    (h2 : b.squareAt p0.1 p0.2 d = some s1)
    (h3 : hasPawn pawns s1 = true)
    (h4 : b.isConnectedWithSquareAt s1.1 s1.2 d = true)
    (h5 : b.squareAt s1.1 s1.2 d = some s2) :
    dirContribution b pawns p0 d = [s2] ∧ s2 ∈ possibleMoves b pawns p0 := by
  have hd : dirContribution b pawns p0 d = [s2] := by
    rw [dirContribution, if_pos h1, h2]
    simp only [h3, if_true, if_pos h4, h5]
  refine ⟨hd, ?_⟩
  refine List.mem_flatMap.mpr ⟨d, ?_, ?_⟩
  · cases d <;> simp [cardinalPoints]
  · rw [hd]; exact List.mem_singleton.mpr rfl

theorem jump_exclusivity_witness :
    dirContribution (emptyBoard 9 9) [(4,4),(4,5)] (4,4) CardinalPoint.south = [(4,6)]
    ∧ ((4,6) : Cell) ∈ possibleMoves (emptyBoard 9 9) [(4,4),(4,5)] (4,4) :=
  jump_exclusivity (emptyBoard 9 9) [(4,4),(4,5)] (4,4) (4,5) (4,6) CardinalPoint.south
    (by decide) (by decide) (by decide) (by decide) (by decide)

/-- Claim C5: diagonal enablement. If the neighbour `s1` of the mover in
direction `d` holds a pawn and the straight continuation beyond `s1` is
closed (walled or off-board), then every orthogonal direction whose edge
from `s1` is open and leads to an on-board square contributes that square
to the legal destination set. -/
theorem diagonal_enablement (b : Board) (pawns : List Cell) (p0 s1 s2 : Cell)
    (d od : CardinalPoint)
    (h1 : b.isConnectedWithSquareAt p0.1 p0.2 d = true)
    (h2 : b.squareAt p0.1 p0.2 d = some s1)
    (h3 : hasPawn pawns s1 = true)
    (h4 : b.isConnectedWithSquareAt s1.1 s1.2 d = false)
    (h5 : od ∈ d.orthogonalPoints)
    (h6 : b.isConnectedWithSquareAt s1.1 s1.2 od = true)
    (h7 : b.squareAt s1.1 s1.2 od = some s2) :
    s2 ∈ possibleMoves b pawns p0 := by
  have hmem : s2 ∈ dirContribution b pawns p0 d := by
    rw [dirContribution, if_pos h1, h2]
    simp only [h3, if_true, h4, Bool.false_eq_true, if_false]
    exact List.mem_filterMap.mpr ⟨od, h5, by rw [if_pos h6]; exact h7⟩
  exact List.mem_flatMap.mpr ⟨d, by cases d <;> simp [cardinalPoints], hmem⟩

theorem diagonal_enablement_witness :
    ((3,5) : Cell) ∈ possibleMoves ((emptyBoard 9 9).placeHorizontalFence 4 5)
      [(4,4),(4,5)] (4,4) :=
  diagonal_enablement ((emptyBoard 9 9).placeHorizontalFence 4 5) [(4,4),(4,5)]
    (4,4) (4,5) (3,5) CardinalPoint.south CardinalPoint.west
    (by decide) (by decide) (by decide) (by decide) (by decide) (by decide) (by decide)

/-! ### Claims C1, C2, C8 -/

/-- Counterexample to claim C1 as stated: on a 1×2 board whose single player
stands at (0,0) with goal (0,1), the horizontal-fence move anchored at (0,0)
passes `check_valid` (the reachability check runs on the board *before* the
candidate fence), yet after `apply` the player has no open path to its goal:
a legal fence placement can trap a player. -/
theorem fence_check_can_trap_player_cex :
    checkValid_placeFenceHorizontally (emptyBoard 1 2) [⟨(0,0), [(0,1)]⟩] 0 0 2 = some true
    ∧ ¬ CanReach ((emptyBoard 1 2).placeHorizontalFence 0 0) (0,0) [(0,1)] := by
  refine ⟨by decide, ?_⟩
  rintro ⟨g, hg, hpath⟩
  have hgS := reach_closed ((emptyBoard 1 2).placeHorizontalFence 0 0) [(0,0)]
      (by decide) (0,0) g (by decide) hpath
  rw [List.mem_singleton] at hg hgS
  rw [hgS] at hg
  exact absurd hg (by decide)

/-- Claim C1 (amended): for every fence move (horizontal or vertical) whose
`check_valid` returns true, every player has at least one open path from its
pawn square to some square of its goal set on the board state *against which
the check ran*, i.e. the pre-placement board. (As stated, with the path
required on the post-`apply` board, the claim is false — see the
counterexample.) -/
theorem fence_check_valid_implies_pre_placement_reach (b : Board) (ps : List Player)
    (x y : Int) (fuel : Nat) :
    (checkValid_placeFenceHorizontally b ps x y fuel = some true →
      ∀ p ∈ ps, CanReach b p.pawn p.goals)
    ∧ (checkValid_placeFenceVertically b ps x y fuel = some true →
      ∀ p ∈ ps, CanReach b p.pawn p.goals) := by
  constructor
  · intro h
    rw [checkValid_placeFenceHorizontally] at h
    split at h
    · simp at h
    · split at h
      · simp at h
      · exact allPlayersReachGoal_sound b ps fuel h
  · intro h
    rw [checkValid_placeFenceVertically] at h
    split at h
    · simp at h
    · split at h
      · simp at h
      · exact allPlayersReachGoal_sound b ps fuel h

theorem fence_check_valid_implies_pre_placement_reach_witness :
    CanReach (emptyBoard 1 2) (0,0) [(0,1)] ∧ CanReach (emptyBoard 2 1) (0,0) [(1,0)] :=
  ⟨(fence_check_valid_implies_pre_placement_reach (emptyBoard 1 2)
      [⟨(0,0), [(0,1)]⟩] 0 1 2).1 (by decide) ⟨(0,0), [(0,1)]⟩ (List.mem_singleton.mpr rfl),
   (fence_check_valid_implies_pre_placement_reach (emptyBoard 2 1)
      [⟨(0,0), [(1,0)]⟩] 0 0 2).2 (by decide) ⟨(0,0), [(1,0)]⟩ (List.mem_singleton.mpr rfl)⟩

/-- Claim C2 (code bug): the reachability check does *not* terminate for
every input. With the player walled off from every goal square (1×2 board,
horizontal fence between (0,0) and (0,1)), `_can_player_reach_goal` never
returns: `while queue:` tests the truthiness of a `queue.Queue` object,
which is always `True`, so after the frontier empties the loop spins
forever and the trailing `return False` is unreachable. Formally: for every
amount of fuel the embedded loop is still running (`none`) — in particular
it never returns `false`. -/
theorem bfs_unreachable_goal_never_returns :
    ∀ n : Nat, canPlayerReachGoal ((emptyBoard 1 2).placeHorizontalFence 0 0)
      ⟨(0,0), [(0,1)]⟩ n = none := by
  intro n
  cases n with
  | zero => rfl
  | succ n =>
    rw [canPlayerReachGoal, bfsLoop]
    have h1 : bfsLevel ((emptyBoard 1 2).placeHorizontalFence 0 0) [(0,1)]
        [(0,0)] [] [] = some ([], [(0,0)]) := by decide
    rw [h1]
    exact bfsLoop_empty _ _ _ n

/-- Claim C8: reachability is monotonically non-increasing in the wall
flags — for every board, start square and goal set, if a goal is reachable
through open edges after setting any single horizontal or vertical flag,
it was already reachable before. -/
theorem reachability_wall_monotone (b : Board) (x0 y0 : Int) (s : Cell)
    (goals : List Cell) :
    (CanReach (b.placeHorizontalFence x0 y0) s goals → CanReach b s goals)
    ∧ (CanReach (b.placeVerticalFence x0 y0) s goals → CanReach b s goals) :=
  ⟨canReach_of_canReach_placeHorizontalFence b x0 y0 s goals,
   canReach_of_canReach_placeVerticalFence b x0 y0 s goals⟩

theorem reachability_wall_monotone_witness :
    CanReach (emptyBoard 2 2) (0,0) [(1,1)] ∧ CanReach (emptyBoard 2 2) (1,1) [(0,0)] := by
  constructor
  · refine (reachability_wall_monotone (emptyBoard 2 2) 0 1 (0,0) [(1,1)]).1 ?_
    have s1 : stepTo ((emptyBoard 2 2).placeHorizontalFence 0 1) (0,0) (1,0) := by
      show ((1,0) : Cell) ∈ ((emptyBoard 2 2).placeHorizontalFence 0 1).cardinalNeighbors 0 0
      decide
    have s2 : stepTo ((emptyBoard 2 2).placeHorizontalFence 0 1) (1,0) (1,1) := by
      show ((1,1) : Cell) ∈ ((emptyBoard 2 2).placeHorizontalFence 0 1).cardinalNeighbors 1 0
      decide
    exact ⟨(1,1), List.mem_singleton.mpr rfl, (Relation.ReflTransGen.single s1).tail s2⟩
  · refine (reachability_wall_monotone (emptyBoard 2 2) 1 0 (1,1) [(0,0)]).2 ?_
    have s1 : stepTo ((emptyBoard 2 2).placeVerticalFence 1 0) (1,1) (0,1) := by
      show ((0,1) : Cell) ∈ ((emptyBoard 2 2).placeVerticalFence 1 0).cardinalNeighbors 1 1
      decide
    have s2 : stepTo ((emptyBoard 2 2).placeVerticalFence 1 0) (0,1) (0,0) := by
      show ((0,0) : Cell) ∈ ((emptyBoard 2 2).placeVerticalFence 1 0).cardinalNeighbors 0 1
      decide
    exact ⟨(0,0), List.mem_singleton.mpr rfl, (Relation.ReflTransGen.single s1).tail s2⟩

/-! ### Claim C6 -/

/-- Claim C7: validation is side-effect-free and rejection is atomic. The
embedding of `check_valid` for every move kind is a pure function of the
game state (the source bodies contain no assignment to board, player or
game fields), so: a move that fails validation leaves `Game.move` returning
the state unchanged with the turn not advanced, and a second `check_valid`
on the same state (with any additional fuel for the reachability loop)
returns the same result. -/
theorem check_valid_pure_and_idempotent (g : GameState) (m : MoveT) (t : Int)
    (fuel k : Nat) (r : Bool) (ht : g.turn = some t) :
    (checkValidMove g t m fuel = some false → gameMove g m fuel = some g)
    ∧ (checkValidMove g t m fuel = some r → checkValidMove g t m (fuel + k) = some r) := by
  constructor
  · intro h
    simp only [gameMove, ht, h]
  · intro h
    cases m with
    | pawnMove c => exact h
    | fenceH a =>
      rw [checkValidMove] at h ⊢
      rw [checkValid_placeFenceHorizontally] at h ⊢
      by_cases h1 : g.board.hasHorizontalFence a.1 a.2 = true
      · rw [if_pos h1] at h ⊢
        exact h
      · rw [if_neg h1] at h ⊢
        by_cases h2 : (g.board.inBounds (a.1 + 1) a.2
            && g.board.hasHorizontalFence (a.1 + 1) a.2) = true
        · rw [if_pos h2] at h ⊢
          exact h
        · rw [if_neg h2] at h ⊢
          exact allPlayersReachGoal_mono_add g.board g.players fuel k r h
    | fenceV a =>
      rw [checkValidMove] at h ⊢
      rw [checkValid_placeFenceVertically] at h ⊢
      by_cases h1 : g.board.hasVerticalFence a.1 a.2 = true
      · rw [if_pos h1] at h ⊢
        exact h
      · rw [if_neg h1] at h ⊢
        by_cases h2 : (g.board.inBounds a.1 (a.2 + 1)
            && g.board.hasVerticalFence a.1 (a.2 + 1)) = true
        · rw [if_pos h2] at h ⊢
          exact h
        · rw [if_neg h2] at h ⊢
          exact allPlayersReachGoal_mono_add g.board g.players fuel k r h

theorem check_valid_pure_and_idempotent_witness :
    gameMove gameStart (MoveT.pawnMove (0, 0)) 3 = some gameStart
    ∧ checkValidMove gameStart 1 (MoveT.pawnMove (0, 0)) (3 + 2) = some false :=
  ⟨(check_valid_pure_and_idempotent gameStart (MoveT.pawnMove (0, 0)) 1 3 2 false rfl).1
      (by decide),
   (check_valid_pure_and_idempotent gameStart (MoveT.pawnMove (0, 0)) 1 3 2 false rfl).2
      (by decide)⟩

/-- Claim C9: the collinear-overlap rejection is one-sided. A horizontal
fence anchored at (x,y) passes the duplicate and overlap checks even when
the horizontal flag of the west neighbour (x-1,y) is already set — its
validity reduces to the reachability condition alone — although both
fences block the same unit edge (the south edge of (x,y)); symmetrically, a
vertical fence at (x,y) passes them when the north neighbour's vertical
flag is set, both blocking the east edge of (x,y). -/
theorem collinear_overlap_one_sided (b : Board) (ps : List Player) (x y : Int)
    (fuel : Nat) :
    (b.inBounds (x - 1) y = true → b.hasHorizontalFence (x - 1) y = true →
     b.hasHorizontalFence x y = false →
     (b.inBounds (x + 1) y && b.hasHorizontalFence (x + 1) y) = false →
     (checkValid_placeFenceHorizontally b ps x y fuel = allPlayersReachGoal b ps fuel
      ∧ b.hasFenceAt x y CardinalPoint.south = true
      ∧ (b.placeHorizontalFence x y).hasFenceAt x y CardinalPoint.south = true))
    ∧ (b.inBounds x (y - 1) = true → b.hasVerticalFence x (y - 1) = true →
     b.hasVerticalFence x y = false →
     (b.inBounds x (y + 1) && b.hasVerticalFence x (y + 1)) = false →
     (checkValid_placeFenceVertically b ps x y fuel = allPlayersReachGoal b ps fuel
      ∧ b.hasFenceAt x y CardinalPoint.east = true
      ∧ (b.placeVerticalFence x y).hasFenceAt x y CardinalPoint.east = true)) := by
  constructor
  · intro hin hw hx he
    refine ⟨?_, ?_, ?_⟩
    · rw [checkValid_placeFenceHorizontally, if_neg (by simp [hx]), if_neg (by simp [he])]
    · simp [Board.hasFenceAt, Board.southFence, hin, hw]
    · simp [Board.hasFenceAt, Board.southFence, Board.placeHorizontalFence]
  · intro hin hw hx he
    refine ⟨?_, ?_, ?_⟩
    · rw [checkValid_placeFenceVertically, if_neg (by simp [hx]), if_neg (by simp [he])]
    · simp [Board.hasFenceAt, Board.eastFence, hin, hw]
    · simp [Board.hasFenceAt, Board.eastFence, Board.placeVerticalFence]

theorem collinear_overlap_one_sided_witness :
    (checkValid_placeFenceHorizontally
        (Board.mk 3 3 (fun a c => a == 0 && c == 0) (fun a c => a == 0 && c == 0))
        [⟨(2, 2), [(2, 2)]⟩] 1 0 1
      = allPlayersReachGoal
        (Board.mk 3 3 (fun a c => a == 0 && c == 0) (fun a c => a == 0 && c == 0))
        [⟨(2, 2), [(2, 2)]⟩] 1
     ∧ (Board.mk 3 3 (fun a c => a == 0 && c == 0)
          (fun a c => a == 0 && c == 0)).hasFenceAt 1 0 CardinalPoint.south = true
     ∧ ((Board.mk 3 3 (fun a c => a == 0 && c == 0)
          (fun a c => a == 0 && c == 0)).placeHorizontalFence 1 0).hasFenceAt 1 0
          CardinalPoint.south = true)
    ∧ (checkValid_placeFenceVertically
        (Board.mk 3 3 (fun a c => a == 0 && c == 0) (fun a c => a == 0 && c == 0))
        [⟨(2, 2), [(2, 2)]⟩] 0 1 1
      = allPlayersReachGoal
        (Board.mk 3 3 (fun a c => a == 0 && c == 0) (fun a c => a == 0 && c == 0))
        [⟨(2, 2), [(2, 2)]⟩] 1
     ∧ (Board.mk 3 3 (fun a c => a == 0 && c == 0)
          (fun a c => a == 0 && c == 0)).hasFenceAt 0 1 CardinalPoint.east = true
     ∧ ((Board.mk 3 3 (fun a c => a == 0 && c == 0)
          (fun a c => a == 0 && c == 0)).placeVerticalFence 0 1).hasFenceAt 0 1
          CardinalPoint.east = true) :=
  ⟨(collinear_overlap_one_sided
      (Board.mk 3 3 (fun a c => a == 0 && c == 0) (fun a c => a == 0 && c == 0))
      [⟨(2, 2), [(2, 2)]⟩] 1 0 1).1 (by decide) (by decide) (by decide) (by decide),
   (collinear_overlap_one_sided
      (Board.mk 3 3 (fun a c => a == 0 && c == 0) (fun a c => a == 0 && c == 0))
      [⟨(2, 2), [(2, 2)]⟩] 0 1 1).2 (by decide) (by decide) (by decide) (by decide)⟩

/-- Claim C10: fence validation never consults the opposite orientation's
flag. The result of `check_valid` for a vertical fence at (x,y) is a
function of only the vertical flags at the anchor and its south neighbour
plus the outcome of the reachability loop — two states agreeing on those
observations (for instance, one with a crossing horizontal flag at the
anchor and one without) validate identically; symmetrically for a
horizontal fence over an existing vertical flag. -/
theorem fence_check_ignores_cross_orientation (x y : Int) (fuel fuel' : Nat)
    (b b' : Board) (ps ps' : List Player) :
    ((b.hasVerticalFence x y = b'.hasVerticalFence x y) →
     ((b.inBounds x (y + 1) && b.hasVerticalFence x (y + 1))
        = (b'.inBounds x (y + 1) && b'.hasVerticalFence x (y + 1))) →
     allPlayersReachGoal b ps fuel = allPlayersReachGoal b' ps' fuel' →
     checkValid_placeFenceVertically b ps x y fuel
        = checkValid_placeFenceVertically b' ps' x y fuel')
    ∧ ((b.hasHorizontalFence x y = b'.hasHorizontalFence x y) →
     ((b.inBounds (x + 1) y && b.hasHorizontalFence (x + 1) y)
        = (b'.inBounds (x + 1) y && b'.hasHorizontalFence (x + 1) y)) →
     allPlayersReachGoal b ps fuel = allPlayersReachGoal b' ps' fuel' →
     checkValid_placeFenceHorizontally b ps x y fuel
        = checkValid_placeFenceHorizontally b' ps' x y fuel') := by
  constructor
  · intro h1 h2 h3
    simp only [checkValid_placeFenceVertically, h1, h2, h3]
  · intro h1 h2 h3
    simp only [checkValid_placeFenceHorizontally, h1, h2, h3]

theorem fence_check_ignores_cross_orientation_witness :
    checkValid_placeFenceVertically
        (Board.mk 3 3 (fun a c => a == 0 && c == 0) (fun _ _ => false))
        [⟨(2, 2), [(2, 2)]⟩] 0 0 1
      = checkValid_placeFenceVertically (emptyBoard 3 3) [⟨(2, 2), [(2, 2)]⟩] 0 0 1
    ∧ checkValid_placeFenceHorizontally
        (Board.mk 3 3 (fun _ _ => false) (fun a c => a == 0 && c == 0))
        [⟨(2, 2), [(2, 2)]⟩] 0 0 1
      = checkValid_placeFenceHorizontally (emptyBoard 3 3) [⟨(2, 2), [(2, 2)]⟩] 0 0 1 :=
  ⟨(fence_check_ignores_cross_orientation 0 0 1 1
      (Board.mk 3 3 (fun a c => a == 0 && c == 0) (fun _ _ => false)) (emptyBoard 3 3)
      [⟨(2, 2), [(2, 2)]⟩] [⟨(2, 2), [(2, 2)]⟩]).1 (by decide) (by decide) (by decide),
   (fence_check_ignores_cross_orientation 0 0 1 1
      (Board.mk 3 3 (fun _ _ => false) (fun a c => a == 0 && c == 0)) (emptyBoard 3 3)
      [⟨(2, 2), [(2, 2)]⟩] [⟨(2, 2), [(2, 2)]⟩]).2 (by decide) (by decide) (by decide)⟩
